import Mathlib

/-!
Shallow embedding of the numerical core of the Physics-Manim repository.

The embedded code is:
* `src/objects/particles.py` (`ChargedParticle`): clock, recent-position ring,
  position/acceleration history buffer, finite-difference acceleration and the
  sub-stepped Euler force integrator.  Modelled over `ℚ` (numpy float rows are
  modelled as exact rationals) so every definition is executable.
* `src/utils/forces.py` (`points_to_particle_info`, `coulomb_force`,
  `lorentz_force`) and `src/objects/fields.py` (`CoulombField.get_forces`,
  `LorentzField.get_forces`): modelled over `ℝ`, since these compute Euclidean
  norms.  `np.inf` values of the adjusted distance are modelled in `ℝ≥0∞`;
  numpy's `x / inf = 0` becomes `(⊤ : ℝ≥0∞)⁻¹.toReal = 0`.
-/

namespace PhysicsManim

/-- A 3-vector with rational components; one row of a numpy `(n, 3)` array,
modelled exactly. -/
abbrev Vec3Q := ℚ × ℚ × ℚ

/-- Default absolute tolerance of `np.isclose`. -/
def npAtol : ℚ := 1 / 100000000

/-- Default relative tolerance of `np.isclose`. -/
def npRtol : ℚ := 1 / 100000

/-- Componentwise `np.isclose` with default tolerances:
`|a - b| <= atol + rtol * |b|`. -/
def npIsClose (a b : ℚ) : Bool :=
  decide (|a - b| ≤ npAtol + npRtol * |b|)

/-- The `np.isclose(p, q).all()` test used by `ChargedParticle.get_acceleration`. -/
def npIsClose3 (v w : Vec3Q) : Bool :=
  npIsClose v.1 w.1 && npIsClose v.2.1 w.2.1 && npIsClose v.2.2 w.2.2

/-- Physical and bookkeeping state of a `ChargedParticle`
(`src/objects/particles.py`).  Visual members (sphere, sign) are out of scope.
When `track_position_history` is false the Python object simply lacks the
`position_history` / `acceleration_history` attributes; here the flag records
that absence and the list fields are empty. -/
structure PState where
  charge : ℚ
  mass : ℚ
  radius : ℚ
  track_position_history : Bool
  history_size : ℕ
  euler_steps_per_frame : ℕ
  center : Vec3Q
  velocity : Vec3Q
  time : ℚ
  time_step : ℚ
  recent0 : Vec3Q
  recent1 : Vec3Q
  recent2 : Vec3Q
  position_history : List Vec3Q
  acceleration_history : List Vec3Q
  history_index : ℤ
deriving DecidableEq, Repr

/-- `ChargedParticle.__init__` together with `init_clock`.  The constructor
performs no validation whatsoever: every argument is stored verbatim. -/
def mkChargedParticle (point : Vec3Q) (charge mass radius : ℚ)
    (track_position_history : Bool)
    (history_size euler_steps_per_frame : ℕ) : PState :=
  { charge := charge
    mass := mass
    radius := radius
    track_position_history := track_position_history
    history_size := history_size
    euler_steps_per_frame := euler_steps_per_frame
    center := point
    velocity := (0, 0, 0)
    time := 0
    time_step := 1 / 30
    recent0 := point
    recent1 := point
    recent2 := point
    position_history :=
      if track_position_history then List.replicate history_size (0, 0, 0) else []
    acceleration_history :=
      if track_position_history then List.replicate history_size (0, 0, 0) else []
    history_index := -1 }

/-- `ChargedParticle.get_acceleration`: central finite difference over the last
three raw positions, with a stationarity guard built from `np.isclose`. -/
def get_acceleration (s : PState) : Vec3Q :=
  if npIsClose3 s.recent0 s.recent1 || npIsClose3 s.recent1 s.recent2 then
    (0, 0, 0)
  else
    (1 / s.time_step ^ 2) • (s.recent0 + s.recent2 - (2 : ℚ) • s.recent1)

/-- The numpy slice assignment `arr[: h // 2] = arr[h // 2 :]` performed by
`add_to_position_history` on overflow (shapes match when `h` is even, which
holds for the default `history_size = 7200`). -/
def compactHalf (h : ℕ) (arr : List Vec3Q) : List Vec3Q :=
  (arr.drop (h / 2)).take (h / 2) ++ arr.drop (h / 2)

/-- Write to a numpy row at a nonnegative integer index
(`arr[i] = v` with `i = history_index ≥ 0`). -/
def setAtZ (arr : List Vec3Q) (i : ℤ) (v : Vec3Q) : List Vec3Q :=
  arr.set i.toNat v

/-- `ChargedParticle.add_to_position_history`: advance the cursor, compact the
two history arrays when the cursor reaches capacity (resuming at
`hist_size // 2 + 1`), then record the current position and acceleration at the
cursor. -/
def add_to_position_history (s : PState) : PState :=
  let i := s.history_index + 1
  let hsz := s.history_size
  let s1 :=
    if (hsz : ℤ) ≤ i then
      { s with
          position_history := compactHalf hsz s.position_history
          acceleration_history := compactHalf hsz s.acceleration_history
          history_index := ((hsz / 2 : ℕ) : ℤ) + 1 }
    else
      { s with history_index := i }
  { s1 with
      position_history := setAtZ s1.position_history s1.history_index s1.center
      acceleration_history :=
        setAtZ s1.acceleration_history s1.history_index (get_acceleration s1) }

/-- `ChargedParticle.increment_clock`: a no-op when `dt == 0`, otherwise
advances the clock, remembers the step, shifts the recent-position ring and
(when tracking) records into the history buffer. -/
def increment_clock (dt : ℚ) (s : PState) : PState :=
  if dt = 0 then s
  else
    let s1 :=
      { s with
          time := s.time + dt
          time_step := dt
          recent0 := s.recent1
          recent1 := s.recent2
          recent2 := s.center }
    if s1.track_position_history then add_to_position_history s1 else s1

/-- `ChargedParticle.update`: the physics part of the per-frame update is
exactly `increment_clock dt` (the superclass update only animates visuals). -/
def update (dt : ℚ) (s : PState) : PState :=
  increment_clock dt s

/-- Truncation toward zero, the semantics of numpy `.astype(int)`. -/
def truncToInt (x : ℚ) : ℤ :=
  if 0 ≤ x then ⌊x⌋ else ⌈x⌉

/-- `np.clip(x, lo, hi) = min (max x lo) hi`. -/
def npClip (x lo hi : ℚ) : ℚ :=
  min (max x lo) hi

/-- Numpy integer indexing of an `(n, 3)` array, including Python-style
negative indices; out-of-range indices raise `IndexError`. -/
def npIndex (arr : List Vec3Q) (i : ℤ) : Except String Vec3Q :=
  let j := if i < 0 then i + arr.length else i
  if 0 ≤ j ∧ j < (arr.length : ℤ) then .ok (arr.getD j.toNat (0, 0, 0))
  else .error "IndexError"

/-- `ChargedParticle.get_info_from_delays`: raises when history tracking is off
(the Python code tests `hasattr(self, "acceleration_history")`, an attribute
created by `init_clock` exactly when `track_position_history` is true); returns
zeros for an empty history array; otherwise indexes the array at
`clip(history_index - delays / time_step, 0, history_index).astype(int)`. -/
def get_info_from_delays (s : PState) (info_arr : List Vec3Q)
    (delays : List ℚ) : Except String (List Vec3Q) :=
  if s.track_position_history = false then
    .error "track_position_history is not turned on"
  else if info_arr.length = 0 then
    .ok (delays.map fun _ => (0, 0, 0))
  else
    delays.mapM fun d =>
      npIndex info_arr
        (truncToInt
          (npClip ((s.history_index : ℚ) - d / s.time_step) 0
            (s.history_index : ℚ)))

/-- `ChargedParticle.get_past_acceleration`. -/
def get_past_acceleration (s : PState) (delays : List ℚ) :
    Except String (List Vec3Q) :=
  get_info_from_delays s s.acceleration_history delays

/-- `ChargedParticle.get_past_position`. -/
def get_past_position (s : PState) (delays : List ℚ) :
    Except String (List Vec3Q) :=
  get_info_from_delays s s.position_history delays

/-- Body of the loop in `update_from_force` (inside
`ChargedParticle.add_force`): evaluate the force at the current center, divide
by the mass, bump the velocity, then shift by the updated velocity. -/
def eulerSubstep (force_func : Vec3Q → Vec3Q) (mass dt : ℚ) (espf : ℕ)
    (st : Vec3Q × Vec3Q) : Vec3Q × Vec3Q :=
  let acc := (1 / mass) • force_func st.1
  let v := st.2 + (dt / (espf : ℚ)) • acc
  (st.1 + (dt / (espf : ℚ)) • v, v)

/-- The `for _ in range(espf)` loop of `update_from_force`. -/
def eulerLoop (force_func : Vec3Q → Vec3Q) (mass dt : ℚ) (espf : ℕ) :
    ℕ → Vec3Q × Vec3Q → Vec3Q × Vec3Q
  | 0, st => st
  | n + 1, st => eulerLoop force_func mass dt espf n
      (eulerSubstep force_func mass dt espf st)

/-- `update_from_force`, the updater installed by `ChargedParticle.add_force`,
acting on the (center, velocity) pair: a no-op when `dt == 0`, otherwise
`euler_steps_per_frame` sub-steps of semi-implicit Euler. -/
def update_from_force (force_func : Vec3Q → Vec3Q) (mass : ℚ) (espf : ℕ)
    (dt : ℚ) (st : Vec3Q × Vec3Q) : Vec3Q × Vec3Q :=
  if dt = 0 then st
  else eulerLoop force_func mass dt espf espf st

/-- One outer frame as the scene graph drives it: external updaters move the
center, then `update(dt)` increments the clock (recording history). -/
def advanceWith (p : Vec3Q) (dt : ℚ) (s : PState) : PState :=
  increment_clock dt { s with center := p }

/-- A sequence of outer frames with a constant `dt`, the k-th frame moving the
particle to the k-th listed position. -/
def advanceSeq (dt : ℚ) (ps : List Vec3Q) (s : PState) : PState :=
  ps.foldl (fun st p => advanceWith p dt st) s

/-- Modelled from the spec, section 4.6: a single semi-implicit Euler sub-step
as the spec words it — evaluate the force at the particle's current center,
update `velocity += (force / mass) * (dt / sub_steps)`, then shift the position
by the updated `velocity * (dt / sub_steps)`. -/
def semiImplicitEulerStep (force_func : Vec3Q → Vec3Q) (mass dt : ℚ)
    (sub_steps : ℕ) (st : Vec3Q × Vec3Q) : Vec3Q × Vec3Q :=
  let force := force_func st.1
  let v := st.2 + (dt / (sub_steps : ℚ)) • ((1 / mass) • force)
  (st.1 + (dt / (sub_steps : ℚ)) • v, v)

lemma eulerLoop_eq_iterate (force_func : Vec3Q → Vec3Q) (mass dt : ℚ)
    (espf : ℕ) :
    ∀ (n : ℕ) (st : Vec3Q × Vec3Q),
      eulerLoop force_func mass dt espf n st =
        (semiImplicitEulerStep force_func mass dt espf)^[n] st := by
  intro n
  induction n with
  | zero => intro st; rfl
  | succ n ih =>
    intro st
    rw [eulerLoop, Function.iterate_succ_apply, ih]
    rfl

/-- C7: the per-frame update with `dt = 0` is a complete no-op on physics
state: `increment_clock` (hence `update`) returns the state unchanged — so
position, velocity, clock, `time_step`, the recent positions, both history
arrays and `history_index` are untouched and no history sample is written —
and the force updater `update_from_force` leaves center and velocity
unchanged. -/
theorem c7_zero_dt_noop :
    ∀ (s : PState) (force_func : Vec3Q → Vec3Q) (mass : ℚ) (espf : ℕ)
      (st : Vec3Q × Vec3Q),
      update 0 s = s ∧ increment_clock 0 s = s ∧
        update_from_force force_func mass espf 0 st = st := by
  intro s force_func mass espf st
  refine ⟨?_, ?_, ?_⟩ <;> simp [update, increment_clock, update_from_force]

/-- C10 counterexample: the claim says a particle with `mass ≤ 0` or a negative
suppression radius is rejected at construction; in the code `__init__`
validates nothing, so construction with `mass = 0` and `radius = -1` succeeds
and stores those values — a constructed particle whose mass is not strictly
positive. -/
theorem c10_counterexample :
    (mkChargedParticle (0, 0, 0) 1 0 (-1) true 4 10).mass ≤ 0 ∧
      (mkChargedParticle (0, 0, 0) 1 0 (-1) true 4 10).radius < 0 := by
  constructor <;> norm_num [mkChargedParticle]

/-- C10 amended: construction performs no validation at all — every argument,
including a nonpositive mass and a negative radius, is stored verbatim, and
the division by mass in force integration is unguarded. -/
theorem c10_amended_no_validation (point : Vec3Q) (charge mass radius : ℚ)
    (track : Bool) (history_size espf : ℕ) :
    (mkChargedParticle point charge mass radius track history_size espf).mass
        = mass ∧
      (mkChargedParticle point charge mass radius track history_size
        espf).radius = radius ∧
      (mkChargedParticle point charge mass radius track history_size
        espf).charge = charge ∧
      (mkChargedParticle point charge mass radius track history_size
        espf).velocity = (0, 0, 0) ∧
      (mkChargedParticle point charge mass radius track history_size
        espf).center = point :=
  ⟨rfl, rfl, rfl, rfl, rfl⟩

/-- C8: the finite-difference acceleration estimator returns
`(p0 + p2 - 2 p1) / h²` whenever both consecutive pairs of recent positions
differ beyond the `np.isclose` tolerance, returns exactly the zero vector when
either pair is within tolerance, and consequently a particle moving at
constant velocity over three samples gets exactly the zero vector. -/
theorem c8_acceleration_estimator :
    ∀ s : PState,
      (npIsClose3 s.recent0 s.recent1 = false →
        npIsClose3 s.recent1 s.recent2 = false →
        get_acceleration s =
          (1 / s.time_step ^ 2) •
            (s.recent0 + s.recent2 - (2 : ℚ) • s.recent1)) ∧
      (npIsClose3 s.recent0 s.recent1 = true ∨
          npIsClose3 s.recent1 s.recent2 = true →
        get_acceleration s = (0, 0, 0)) ∧
      (∀ v : Vec3Q, s.recent1 - s.recent0 = v → s.recent2 - s.recent1 = v →
        get_acceleration s = (0, 0, 0)) := by
  intro s
  refine ⟨fun h1 h2 => by simp [get_acceleration, h1, h2], ?_, ?_⟩
  · rintro (h | h) <;> simp [get_acceleration, h]
  · intro v h1 h2
    by_cases hg : (npIsClose3 s.recent0 s.recent1 ||
        npIsClose3 s.recent1 s.recent2) = true
    · simp [get_acceleration, hg]
    · have key : s.recent0 + s.recent2 - (2 : ℚ) • s.recent1 =
          (s.recent2 - s.recent1) - (s.recent1 - s.recent0) := by
        rw [two_smul]; abel
      have hz : s.recent0 + s.recent2 - (2 : ℚ) • s.recent1 = 0 := by
        rw [key, h1, h2, sub_self]
      simp [get_acceleration, hg, hz]

/-- Witness for C8: a particle whose last three recorded positions advance by
the constant step `(1, 0, 0)` gets exactly zero estimated acceleration. -/
theorem c8_acceleration_estimator_witness :
    ({ mkChargedParticle (0, 0, 0) 1 1 (1/5) true 8 10 with
        recent0 := (0, 0, 0), recent1 := (1, 0, 0),
        recent2 := (2, 0, 0) } : PState).recent1 -
        ({ mkChargedParticle (0, 0, 0) 1 1 (1/5) true 8 10 with
        recent0 := (0, 0, 0), recent1 := (1, 0, 0),
        recent2 := (2, 0, 0) } : PState).recent0 = (1, 0, 0) ∧
      get_acceleration
        ({ mkChargedParticle (0, 0, 0) 1 1 (1/5) true 8 10 with
          recent0 := (0, 0, 0), recent1 := (1, 0, 0),
          recent2 := (2, 0, 0) } : PState) = (0, 0, 0) :=
  ⟨by norm_num [mkChargedParticle, Prod.mk_sub_mk],
    (c8_acceleration_estimator _).2.2 (1, 0, 0)
      (by norm_num [mkChargedParticle, Prod.mk_sub_mk])
      (by norm_num [mkChargedParticle, Prod.mk_sub_mk])⟩

lemma list_mapM_ok {α : Type} (f : α → Except String Vec3Q) (g : α → Vec3Q)
    (l : List α) (h : ∀ a ∈ l, f a = .ok (g a)) :
    l.mapM f = .ok (l.map g) := by
  induction l with
  | nil => rfl
  | cons a t ih =>
    rw [List.mapM_cons, h a (List.mem_cons_self a t),
      ih (fun x hx => h x (List.mem_cons_of_mem a hx))]
    rfl

lemma npIndex_ok_of_bounds (arr : List Vec3Q) (i : ℤ) (h0 : 0 ≤ i)
    (h1 : i < (arr.length : ℤ)) :
    npIndex arr i = .ok (arr.getD i.toNat (0, 0, 0)) := by
  simp only [npIndex, if_neg (not_lt.mpr h0)]
  rw [if_pos ⟨h0, h1⟩]

lemma npIndex_neg_one (arr : List Vec3Q) (hlen : 1 ≤ arr.length) :
    npIndex arr (-1) = .ok (arr.getD (arr.length - 1) (0, 0, 0)) := by
  have hl : (1 : ℤ) ≤ (arr.length : ℤ) := by exact_mod_cast hlen
  have hj : (-1 + (arr.length : ℤ)).toNat = arr.length - 1 := by omega
  simp only [npIndex, if_pos (by norm_num : (-1 : ℤ) < 0)]
  rw [if_pos ⟨by omega, by omega⟩, hj]

lemma truncToInt_npClip_bounds (x : ℚ) (hidx : ℤ) (h : 0 ≤ hidx) :
    0 ≤ truncToInt (npClip x 0 (hidx : ℚ)) ∧
      truncToInt (npClip x 0 (hidx : ℚ)) ≤ hidx := by
  have hy0 : (0 : ℚ) ≤ npClip x 0 (hidx : ℚ) :=
    le_min (le_max_right x 0) (by exact_mod_cast h)
  have hy1 : npClip x 0 (hidx : ℚ) ≤ (hidx : ℚ) := min_le_right _ _
  rw [truncToInt, if_pos hy0]
  exact ⟨Int.floor_nonneg.mpr hy0,
    by simpa [Int.floor_intCast] using Int.floor_le_floor hy1⟩

lemma truncToInt_npClip_neg_one (x : ℚ) :
    truncToInt (npClip x 0 ((-1 : ℤ) : ℚ)) = -1 := by
  have : npClip x 0 ((-1 : ℤ) : ℚ) = -1 := by
    rw [npClip, min_eq_right]
    · norm_num
    · have h1 : ((-1 : ℤ) : ℚ) = -1 := by norm_num
      rw [h1]
      exact le_trans (by norm_num) (le_max_right x 0)
  rw [this, truncToInt, if_neg (by norm_num),
    show (-1 : ℚ) = ((-1 : ℤ) : ℚ) by norm_num, Int.ceil_intCast]

lemma get_info_from_delays_ok (s : PState) (info_arr : List Vec3Q)
    (delays : List ℚ) (htrack : s.track_position_history = true)
    (h0 : -1 ≤ s.history_index)
    (h1 : s.history_index < (info_arr.length : ℤ)) :
    ∃ r, get_info_from_delays s info_arr delays = .ok r := by
  by_cases hlen : info_arr.length = 0
  · exact ⟨delays.map fun _ => (0, 0, 0),
      by simp [get_info_from_delays, htrack, hlen]⟩
  · rcases lt_or_eq_of_le h0 with hpos | hneg
    · have hidx0 : 0 ≤ s.history_index := by omega
      refine ⟨delays.map fun d =>
        info_arr.getD
          (truncToInt (npClip ((s.history_index : ℚ) - d / s.time_step) 0
            (s.history_index : ℚ))).toNat (0, 0, 0), ?_⟩
      rw [get_info_from_delays, if_neg (by simp [htrack]), if_neg hlen]
      refine list_mapM_ok _ _ delays fun d _ => ?_
      obtain ⟨hb0, hb1⟩ := truncToInt_npClip_bounds
        ((s.history_index : ℚ) - d / s.time_step) s.history_index hidx0
      exact npIndex_ok_of_bounds _ _ hb0 (by omega)
    · have hm1 : s.history_index = -1 := hneg.symm
      refine ⟨delays.map fun _ =>
        info_arr.getD (info_arr.length - 1) (0, 0, 0), ?_⟩
      rw [get_info_from_delays, if_neg (by simp [htrack]), if_neg hlen]
      refine list_mapM_ok _ _ delays fun d _ => ?_
      rw [hm1, truncToInt_npClip_neg_one]
      exact npIndex_neg_one _ (by omega)

lemma get_info_from_delays_zeros (s : PState) (n : ℕ) (delays : List ℚ)
    (htrack : s.track_position_history = true)
    (hidx : s.history_index = -1) :
    get_info_from_delays s (List.replicate n (0, 0, 0)) delays =
      .ok (delays.map fun _ => (0, 0, 0)) := by
  cases n with
  | zero => simp [get_info_from_delays, htrack]
  | succ m =>
    rw [get_info_from_delays, if_neg (by simp [htrack]), if_neg (by simp)]
    refine list_mapM_ok _ (fun _ => (0, 0, 0)) delays fun d _ => ?_
    rw [hidx, truncToInt_npClip_neg_one, npIndex_neg_one _ (by simp)]
    congr 1
    simp [List.getD]

/-- C9: querying past position or past acceleration raises exactly when the
particle was built with `track_position_history = False` (the Python code
tests for the attribute that `init_clock` creates only in that case); on a
tracking particle with a well-formed buffer neither query ever errors, and on
a freshly constructed tracking particle — before any record — every delay
resolves to the zero-initialized buffers, so both queries return zero vectors
rather than raising. -/
theorem c9_query_error_iff_untracked :
    ∀ (s : PState) (delays : List ℚ),
      (s.track_position_history = false →
        get_past_position s delays =
            .error "track_position_history is not turned on" ∧
          get_past_acceleration s delays =
            .error "track_position_history is not turned on") ∧
      (s.track_position_history = true → -1 ≤ s.history_index →
        (s.history_index < (s.position_history.length : ℤ) →
          ∃ r, get_past_position s delays = .ok r) ∧
        (s.history_index < (s.acceleration_history.length : ℤ) →
          ∃ r, get_past_acceleration s delays = .ok r)) ∧
      (∀ (point : Vec3Q) (charge mass radius : ℚ) (hsz espf : ℕ),
        get_past_position (mkChargedParticle point charge mass radius true hsz
            espf) delays = .ok (delays.map fun _ => (0, 0, 0)) ∧
          get_past_acceleration (mkChargedParticle point charge mass radius
            true hsz espf) delays = .ok (delays.map fun _ => (0, 0, 0))) := by
  intro s delays
  refine ⟨?_, ?_, ?_⟩
  · intro htrack
    constructor <;>
      simp [get_past_position, get_past_acceleration, get_info_from_delays,
        htrack]
  · intro htrack h0
    exact ⟨fun h1 =>
        get_info_from_delays_ok s s.position_history delays htrack h0 h1,
      fun h1 =>
        get_info_from_delays_ok s s.acceleration_history delays htrack h0 h1⟩
  · intro point charge mass radius hsz espf
    constructor
    · rw [get_past_position, show (mkChargedParticle point charge mass radius
          true hsz espf).position_history =
          List.replicate hsz (0, 0, 0) from rfl]
      exact get_info_from_delays_zeros _ hsz delays rfl rfl
    · rw [get_past_acceleration, show (mkChargedParticle point charge mass
          radius true hsz espf).acceleration_history =
          List.replicate hsz (0, 0, 0) from rfl]
      exact get_info_from_delays_zeros _ hsz delays rfl rfl

lemma getD_set_self (l : List Vec3Q) (i : ℕ) (v : Vec3Q) (h : i < l.length) :
    (l.set i v).getD i (0, 0, 0) = v := by
  rw [List.getD_eq_getElem?_getD, List.getElem?_set_self h]
  rfl

lemma getD_set_ne (l : List Vec3Q) (i j : ℕ) (v : Vec3Q) (h : i ≠ j) :
    (l.set i v).getD j (0, 0, 0) = l.getD j (0, 0, 0) := by
  rw [List.getD_eq_getElem?_getD, List.getElem?_set_ne h,
    ← List.getD_eq_getElem?_getD]

lemma getLastD_eq_getD : ∀ (l : List Vec3Q) (d : Vec3Q), l ≠ [] →
    l.getLastD d = l.getD (l.length - 1) d
  | [], _, h => absurd rfl h
  | [_], _, _ => rfl
  | a :: b :: t, d, _ => by
    rw [List.getLastD_cons, getLastD_eq_getD (b :: t) a (by simp)]
    simp [List.length_cons, List.getD_cons_succ]

lemma advanceWith_fields (p : Vec3Q) (dt : ℚ) (s : PState)
    (hdt : dt ≠ 0) (htrack : s.track_position_history = true)
    (hlt : s.history_index + 1 < (s.history_size : ℤ)) :
    (advanceWith p dt s).track_position_history = true ∧
      (advanceWith p dt s).history_size = s.history_size ∧
      (advanceWith p dt s).history_index = s.history_index + 1 ∧
      (advanceWith p dt s).center = p ∧
      (advanceWith p dt s).time_step = dt ∧
      (advanceWith p dt s).position_history =
        s.position_history.set (s.history_index + 1).toNat p := by
  have hguard : ¬ ((s.history_size : ℤ) ≤ s.history_index + 1) :=
    not_le.mpr hlt
  simp [advanceWith, increment_clock, add_to_position_history, setAtZ, hdt,
    htrack, hguard]

lemma advanceSeq_fields (dt : ℚ) (hdt : dt ≠ 0) :
    ∀ (ps : List Vec3Q) (s : PState),
      s.track_position_history = true →
      s.position_history.length = s.history_size →
      -1 ≤ s.history_index →
      s.history_index + ps.length < (s.history_size : ℤ) →
      (advanceSeq dt ps s).track_position_history = true ∧
        (advanceSeq dt ps s).history_size = s.history_size ∧
        (advanceSeq dt ps s).position_history.length = s.history_size ∧
        (advanceSeq dt ps s).history_index =
          s.history_index + ps.length ∧
        (advanceSeq dt ps s).center = ps.getLastD s.center ∧
        (advanceSeq dt ps s).time_step =
          (if ps = [] then s.time_step else dt) ∧
        (∀ k : ℕ, s.history_index < (k : ℤ) →
          (k : ℤ) ≤ s.history_index + ps.length →
          (advanceSeq dt ps s).position_history.getD k (0, 0, 0) =
            ps.getD (k - (s.history_index + 1).toNat) (0, 0, 0)) ∧
        (∀ k : ℕ, (k : ℤ) ≤ s.history_index →
          (advanceSeq dt ps s).position_history.getD k (0, 0, 0) =
            s.position_history.getD k (0, 0, 0)) := by
  intro ps
  induction ps with
  | nil =>
    intro s htrack hlen h0 _
    refine ⟨htrack, rfl, hlen, by simp [advanceSeq], rfl, by simp [advanceSeq],
      ?_, fun k _ => rfl⟩
    intro k hk1 hk2
    simp only [List.length_nil, Nat.cast_zero, add_zero] at hk2
    omega
  | cons p t ih =>
    intro s htrack hlen h0 hcap
    rw [List.length_cons] at hcap
    push_cast at hcap
    have hlt : s.history_index + 1 < (s.history_size : ℤ) := by omega
    obtain ⟨w1, w2, w3, w4, w5, w6⟩ := advanceWith_fields p dt s hdt htrack hlt
    have hseq : advanceSeq dt (p :: t) s = advanceSeq dt t (advanceWith p dt s) :=
      rfl
    have hlen' : (advanceWith p dt s).position_history.length =
        (advanceWith p dt s).history_size := by
      rw [w6, List.length_set, hlen, w2]
    have h0' : -1 ≤ (advanceWith p dt s).history_index := by rw [w3]; omega
    have hcap' : (advanceWith p dt s).history_index + t.length <
        ((advanceWith p dt s).history_size : ℤ) := by
      rw [w3, w2]; omega
    obtain ⟨i1, i2, i3, i4, i5, i6, inew, iold⟩ :=
      ih (advanceWith p dt s) w1 hlen' h0' hcap'
    have htows : ((s.history_index + 1).toNat : ℤ) = s.history_index + 1 :=
      Int.toNat_of_nonneg (by omega)
    have hsetlen : (s.history_index + 1).toNat < s.position_history.length := by
      rw [hlen]; omega
    rw [hseq]
    refine ⟨i1, i2.trans w2, i3.trans w2, ?_, ?_, ?_, ?_, ?_⟩
    · rw [i4, w3, List.length_cons]; push_cast; ring
    · rw [i5, w4, List.getLastD_cons]
    · rcases t with _ | ⟨a, t'⟩
      · simpa [w5] using i6
      · rw [i6, if_neg (by simp), if_neg (by simp)]
    · intro k hk1 hk2
      rw [List.length_cons] at hk2
      push_cast at hk2
      by_cases hke : (k : ℤ) = s.history_index + 1
      · have hk : k = (s.history_index + 1).toNat := by omega
        have := iold k (by rw [w3]; omega)
        rw [this, w6, hk, getD_set_self _ _ _ hsetlen, Nat.sub_self,
          List.getD_cons_zero]
      · have hk1' : (advanceWith p dt s).history_index < (k : ℤ) := by
          rw [w3]; omega
        have hk2' : (k : ℤ) ≤ (advanceWith p dt s).history_index + t.length := by
          rw [w3]; omega
        have htows2 : ((s.history_index + 2).toNat : ℤ) = s.history_index + 2 :=
          Int.toNat_of_nonneg (by omega)
        have hj : k - (s.history_index + 1).toNat =
            (k - (s.history_index + 2).toNat) + 1 := by omega
        rw [inew k hk1' hk2', w3, hj, List.getD_cons_succ]
        congr 2
        omega
    · intro k hk
      have hkne : (s.history_index + 1).toNat ≠ k := by omega
      rw [iold k (by rw [w3]; omega), w6, getD_set_ne _ _ _ _ hkne]

/-- C4: on a tracking particle with at least one recorded sample, every delay
query returns the sample at integer index
`trunc(clamp(history_index - d / time_step, 0, history_index))` — truncation
toward zero (equal to the floor once clamped nonnegative), not rounding; and
after N non-zero advances of constant step `dt` from a fresh tracking particle
(N at most the capacity), delay `0` returns the most recently recorded
(current) position while delay `N * dt` returns, clamped to slot 0, the first
recorded position. -/
theorem c4_retarded_lookup :
    (∀ (s : PState) (delays : List ℚ),
      s.track_position_history = true → 0 ≤ s.history_index →
      s.history_index < (s.position_history.length : ℤ) →
      get_past_position s delays = .ok (delays.map fun d =>
        s.position_history.getD
          (truncToInt (npClip ((s.history_index : ℚ) - d / s.time_step) 0
            (s.history_index : ℚ))).toNat (0, 0, 0))) ∧
    (∀ (dt : ℚ) (point p0 : Vec3Q) (t : List Vec3Q)
      (charge mass radius : ℚ) (hsz espf : ℕ), dt ≠ 0 →
      (p0 :: t).length ≤ hsz →
      get_past_position (advanceSeq dt (p0 :: t)
          (mkChargedParticle point charge mass radius true hsz espf)) [0] =
        .ok [(advanceSeq dt (p0 :: t)
          (mkChargedParticle point charge mass radius true hsz espf)).center] ∧
      (advanceSeq dt (p0 :: t)
          (mkChargedParticle point charge mass radius true hsz espf)).center =
        (p0 :: t).getLastD point ∧
      get_past_position (advanceSeq dt (p0 :: t)
          (mkChargedParticle point charge mass radius true hsz espf))
          [((p0 :: t).length : ℚ) * dt] = .ok [p0]) := by
  have part1 : ∀ (s : PState) (delays : List ℚ),
      s.track_position_history = true → 0 ≤ s.history_index →
      s.history_index < (s.position_history.length : ℤ) →
      get_past_position s delays = .ok (delays.map fun d =>
        s.position_history.getD
          (truncToInt (npClip ((s.history_index : ℚ) - d / s.time_step) 0
            (s.history_index : ℚ))).toNat (0, 0, 0)) := by
    intro s delays htrack h0 h1
    rw [get_past_position, get_info_from_delays, if_neg (by simp [htrack]),
      if_neg (by omega : ¬s.position_history.length = 0)]
    refine list_mapM_ok _ _ delays fun d _ => ?_
    obtain ⟨hb0, hb1⟩ := truncToInt_npClip_bounds
      ((s.history_index : ℚ) - d / s.time_step) s.history_index h0
    exact npIndex_ok_of_bounds _ _ hb0 (by omega)
  refine ⟨part1, ?_⟩
  intro dt point p0 t charge mass radius hsz espf hdt hN
  have hS1 : (mkChargedParticle point charge mass radius true hsz
      espf).track_position_history = true := rfl
  have hS2 : (mkChargedParticle point charge mass radius true hsz
      espf).position_history.length =
      (mkChargedParticle point charge mass radius true hsz espf).history_size := by
    simp [mkChargedParticle]
  have hS3 : (mkChargedParticle point charge mass radius true hsz
      espf).history_index = -1 := rfl
  have hS4 : (mkChargedParticle point charge mass radius true hsz
      espf).history_size = hsz := rfl
  have hS5 : (mkChargedParticle point charge mass radius true hsz
      espf).center = point := rfl
  rw [List.length_cons] at hN
  obtain ⟨a1, a2, a3, a4, a5, a6, anew, aold⟩ :=
    advanceSeq_fields dt hdt (p0 :: t)
      (mkChargedParticle point charge mass radius true hsz espf) hS1 hS2
      (by rw [hS3]) (by rw [hS3, hS4, List.length_cons]; push_cast; omega)
  have hFidx : (advanceSeq dt (p0 :: t)
      (mkChargedParticle point charge mass radius true hsz
        espf)).history_index = (t.length : ℤ) := by
    rw [a4, hS3, List.length_cons]; push_cast; ring
  have hFlen : (advanceSeq dt (p0 :: t)
      (mkChargedParticle point charge mass radius true hsz
        espf)).position_history.length = hsz := by rw [a3, hS4]
  have hidx0 : (0 : ℤ) ≤ (t.length : ℤ) := by positivity
  have hq0 := part1 (advanceSeq dt (p0 :: t)
    (mkChargedParticle point charge mass radius true hsz espf)) [0] a1
    (by rw [hFidx]; exact hidx0) (by have h1 := hFidx; have h2 := hFlen; omega)
  have hqN := part1 (advanceSeq dt (p0 :: t)
    (mkChargedParticle point charge mass radius true hsz espf))
    [((p0 :: t).length : ℚ) * dt] a1
    (by rw [hFidx]; exact hidx0) (by have h1 := hFidx; have h2 := hFlen; omega)
  have hts : (advanceSeq dt (p0 :: t)
      (mkChargedParticle point charge mass radius true hsz
        espf)).time_step = dt := by
    rw [a6, if_neg (List.cons_ne_nil p0 t)]
  have hnew0 := anew t.length (by rw [hS3]; omega)
    (by rw [hS3, List.length_cons]; push_cast; omega)
  have hnewFirst := anew 0 (by rw [hS3]; omega)
    (by rw [hS3, List.length_cons]; push_cast; omega)
  have htn : ((mkChargedParticle point charge mass radius true hsz
      espf).history_index + 1).toNat = 0 := by rw [hS3]; rfl
  rw [htn, Nat.sub_zero] at hnew0
  rw [htn, Nat.sub_zero] at hnewFirst
  refine ⟨?_, ?_, ?_⟩
  · rw [hq0]
    have hxi : truncToInt (npClip
        (((advanceSeq dt (p0 :: t) (mkChargedParticle point charge mass radius
          true hsz espf)).history_index : ℚ) -
          0 / (advanceSeq dt (p0 :: t) (mkChargedParticle point charge mass
            radius true hsz espf)).time_step) 0
        ((advanceSeq dt (p0 :: t) (mkChargedParticle point charge mass radius
          true hsz espf)).history_index : ℚ)) = (t.length : ℤ) := by
      rw [hFidx, zero_div, sub_zero, npClip,
        max_eq_left (by exact_mod_cast hidx0), min_self, truncToInt,
        if_pos (by exact_mod_cast hidx0)]
      exact_mod_cast Int.floor_intCast (α := ℚ) t.length
    rw [List.map_cons, List.map_nil, hxi]
    have h1 : ((t.length : ℤ)).toNat = t.length := rfl
    rw [h1, hnew0, a5, hS5,
      getLastD_eq_getD (p0 :: t) point (List.cons_ne_nil p0 t)]
    rw [List.length_cons, Nat.add_sub_cancel]
    have h2 : (p0 :: t).getD t.length (0, 0, 0) =
        (p0 :: t).getD t.length point := by
      rw [List.getD_eq_getElem?_getD, List.getD_eq_getElem?_getD,
        List.getElem?_eq_getElem (by simp : t.length < (p0 :: t).length)]
      rfl
    rw [h2]
  · rw [a5, hS5]
  · rw [hqN]
    have hxi : truncToInt (npClip
        (((advanceSeq dt (p0 :: t) (mkChargedParticle point charge mass radius
          true hsz espf)).history_index : ℚ) -
          ((p0 :: t).length : ℚ) * dt / (advanceSeq dt (p0 :: t)
            (mkChargedParticle point charge mass radius true hsz
              espf)).time_step) 0
        ((advanceSeq dt (p0 :: t) (mkChargedParticle point charge mass radius
          true hsz espf)).history_index : ℚ)) = 0 := by
      rw [hFidx, hts, mul_div_cancel_right₀ _ hdt, List.length_cons]
      have hx : (((t.length : ℤ)) : ℚ) - ((t.length + 1 : ℕ) : ℚ) = -1 := by
        push_cast; ring
      rw [hx, npClip, max_eq_right (by norm_num : (-1 : ℚ) ≤ 0),
        min_eq_left (by exact_mod_cast hidx0), truncToInt, if_pos le_rfl,
        Int.floor_zero]
    rw [List.map_cons, List.map_nil, hxi]
    rw [show ((0 : ℤ)).toNat = 0 from rfl, hnewFirst, List.getD_cons_zero]

/-- Witness for C4: hypotheses discharged at a two-step advance with `dt = 1`
and for the index formula at the empty delay list on the same particle. -/
theorem c4_retarded_lookup_witness :
    (1 : ℚ) ≠ 0 ∧
      ([((1 : ℚ), 0, 0), (2, 0, 0)] : List Vec3Q).length ≤ 8 ∧
      (get_past_position (advanceSeq 1 [((1 : ℚ), 0, 0), (2, 0, 0)]
          (mkChargedParticle (0, 0, 0) 1 1 (1 / 5) true 8 10)) [0] =
        .ok [(advanceSeq 1 [((1 : ℚ), 0, 0), (2, 0, 0)]
          (mkChargedParticle (0, 0, 0) 1 1 (1 / 5) true 8 10)).center] ∧
      (advanceSeq 1 [((1 : ℚ), 0, 0), (2, 0, 0)]
          (mkChargedParticle (0, 0, 0) 1 1 (1 / 5) true 8 10)).center =
        ([((1 : ℚ), 0, 0), (2, 0, 0)] : List Vec3Q).getLastD (0, 0, 0) ∧
      get_past_position (advanceSeq 1 [((1 : ℚ), 0, 0), (2, 0, 0)]
          (mkChargedParticle (0, 0, 0) 1 1 (1 / 5) true 8 10))
          [(([((1 : ℚ), 0, 0), (2, 0, 0)] : List Vec3Q).length : ℚ) * 1] =
        .ok [((1 : ℚ), 0, 0)]) :=
  ⟨by norm_num, by norm_num,
    c4_retarded_lookup.2 1 (0, 0, 0) ((1 : ℚ), 0, 0) [(2, 0, 0)] 1 1 (1 / 5)
      8 10 (by norm_num) (by norm_num)⟩

/-- Witness for C9: the error hypothesis discharged on a non-tracking particle
and, for both queries, the no-error hypotheses discharged on a fresh tracking
particle. -/
theorem c9_query_error_iff_untracked_witness :
    (get_past_position (mkChargedParticle (0, 0, 0) 1 1 (1 / 5) false 4 10)
          [0] = .error "track_position_history is not turned on" ∧
        get_past_acceleration (mkChargedParticle (0, 0, 0) 1 1 (1 / 5) false 4
          10) [0] = .error "track_position_history is not turned on") ∧
      (∃ r, get_past_position (mkChargedParticle (0, 0, 0) 1 1 (1 / 5) true 4
        10) [1] = .ok r) ∧
      (∃ r, get_past_acceleration (mkChargedParticle (0, 0, 0) 1 1 (1 / 5)
        true 4 10) [1] = .ok r) ∧
      (get_past_position (mkChargedParticle (0, 0, 0) 1 1 (1 / 5) true 4 10)
          [0, 5] = .ok [(0, 0, 0), (0, 0, 0)] ∧
        get_past_acceleration (mkChargedParticle (0, 0, 0) 1 1 (1 / 5) true 4
          10) [0, 5] = .ok [(0, 0, 0), (0, 0, 0)]) :=
  ⟨(c9_query_error_iff_untracked
      (mkChargedParticle (0, 0, 0) 1 1 (1 / 5) false 4 10) [0]).1 rfl,
    ((c9_query_error_iff_untracked
      (mkChargedParticle (0, 0, 0) 1 1 (1 / 5) true 4 10) [1]).2.1 rfl
      (by norm_num [mkChargedParticle])).1 (by norm_num [mkChargedParticle]),
    ((c9_query_error_iff_untracked
      (mkChargedParticle (0, 0, 0) 1 1 (1 / 5) true 4 10) [1]).2.1 rfl
      (by norm_num [mkChargedParticle])).2 (by norm_num [mkChargedParticle]),
    (c9_query_error_iff_untracked
      (mkChargedParticle (0, 0, 0) 1 1 (1 / 5) true 4 10) [0, 5]).2.2
      (0, 0, 0) 1 1 (1 / 5) 4 10⟩

/-- The C3 experiment: a capacity-8 buffer driven through 17 = 2N+1 records of
pairwise-distinct positions with constant `dt = 1`. -/
def c3Particle : PState :=
  advanceSeq 1
    [((0 : ℚ), 0, 0), (1, 0, 0), (2, 0, 0), (3, 0, 0), (4, 0, 0), (5, 0, 0),
      (6, 0, 0), (7, 0, 0), (8, 0, 0), (9, 0, 0), (10, 0, 0), (11, 0, 0),
      (12, 0, 0), (13, 0, 0), (14, 0, 0), (15, 0, 0), (16, 0, 0)]
    (mkChargedParticle (0, 0, 0) 1 1 (1 / 5) true 8 10)

/-- C3 refutation by evaluation: after writing 2N+1 = 17 samples
(k, 0, 0), k = 0..16, into a capacity N = 8 buffer, delays 0, dt, 2·dt still
return the matching most recent samples, but delay 3·dt = 3 returns the stale
sample (4, 0, 0) instead of the fourth most recent write (13, 0, 0): the
compaction resumes writing at slot N/2 + 1, so slot N/2 keeps a
never-overwritten stale copy.  Hence the most recent ~N/2 samples are not all
queryable as the claim requires. -/
theorem c3_stale_slot_after_compaction :
    get_past_position c3Particle [0, 1, 2, 3] =
        .ok [(16, 0, 0), (15, 0, 0), (14, 0, 0), (4, 0, 0)] ∧
      c3Particle.history_index = 7 ∧
      ((4 : ℚ), 0, 0) ≠ ((13 : ℚ), 0, 0) := by
  refine ⟨?_, ?_, by norm_num⟩
  · norm_num [c3Particle, advanceSeq, advanceWith, increment_clock,
      add_to_position_history, get_acceleration, npIsClose3, npIsClose,
      npAtol, npRtol, compactHalf, setAtZ, mkChargedParticle,
      get_past_position, get_info_from_delays, npIndex, npClip, truncToInt,
      List.mapM_cons, List.mapM_nil, List.mapM.loop, List.take, List.drop,
      List.set, List.getD, List.getElem?_cons_zero,
      List.getElem?_cons_succ, List.replicate, Int.toNat, Option.getD]
    rfl
  · norm_num [c3Particle, advanceSeq, advanceWith, increment_clock,
      add_to_position_history, get_acceleration, npIsClose3, npIsClose,
      npAtol, npRtol, compactHalf, setAtZ, mkChargedParticle,
      get_past_position, get_info_from_delays, npIndex, npClip, truncToInt,
      List.take, List.drop, List.set, List.getD, List.replicate, Int.toNat]

/-- C5: with `dt ≠ 0` and positive mass, one call of the force updater performs
exactly `euler_steps_per_frame` iterations of the semi-implicit Euler sub-step:
each iteration re-evaluates the force at the current center, updates the
velocity by `(force / mass) * (dt / sub_steps)` and only then shifts the
position by the updated velocity — never one bulk evaluation for the whole
`dt`. -/
theorem c5_semi_implicit_euler (force_func : Vec3Q → Vec3Q) (mass dt : ℚ)
    (espf : ℕ) (st : Vec3Q × Vec3Q) (hm : 0 < mass) (hdt : dt ≠ 0) :
    update_from_force force_func mass espf dt st =
      (semiImplicitEulerStep force_func mass dt espf)^[espf] st := by
  rw [update_from_force, if_neg hdt, eulerLoop_eq_iterate]

/-- Witness for C5 at a concrete input. -/
theorem c5_semi_implicit_euler_witness :
    (0 : ℚ) < 1 ∧ (1 : ℚ) ≠ 0 ∧
      update_from_force (fun p => p) 1 2 1 ((1, 0, 0), (0, 0, 0)) =
        (semiImplicitEulerStep (fun p => p) 1 1 2)^[2]
          ((1, 0, 0), (0, 0, 0)) :=
  ⟨by norm_num, by norm_num,
    c5_semi_implicit_euler (fun p => p) 1 1 2 ((1, 0, 0), (0, 0, 0))
      (by norm_num) (by norm_num)⟩

/-! ### Real-valued model of `src/utils/forces.py` and `src/objects/fields.py`

Field points and forces are rows of numpy `(n, 3)` arrays, modelled as real
triples; the vectorized pipeline of `points_to_particle_info` is modelled
pointwise over the list of query points.  The `np.inf` produced for the
adjusted distance at distance zero lives in `ENNReal`, and numpy's
`x / inf = 0` is `((⊤ : ENNReal)⁻¹).toReal = 0`. -/

/-- A 3-vector with real components: one row of a numpy `(n, 3)` float array. -/
abbrev Vec3R := ℝ × ℝ × ℝ

/-- Euclidean norm of a row, `np.linalg.norm(..., axis=1)`. -/
noncomputable def normR (v : Vec3R) : ℝ :=
  Real.sqrt (v.1 ^ 2 + v.2.1 ^ 2 + v.2.2 ^ 2)

/-- Row-wise dot product, `(unit_diffs * acceleration).sum(1)`. -/
def dotR (v w : Vec3R) : ℝ :=
  v.1 * w.1 + v.2.1 * w.2.1 + v.2.2 * w.2.2

/-- The interface through which `forces.py` consumes a charged particle:
`get_charge()`, `get_radius()`, `get_center()`, `track_position_history` and
the two history lookups.  The buffer behind the lookups is modelled exactly in
the rational model above; here each lookup is an abstract function of a single
delay (the Python calls are vectorized over delays, handled pointwise). -/
structure SourceParticle where
  charge : ℝ
  radius : ℝ
  track_position_history : Bool
  center : Vec3R
  get_past_position : ℝ → Vec3R
  get_past_acceleration : ℝ → Vec3R

/-- The per-point source position used by `points_to_particle_info`: for a
history-tracking particle, the historical position at the light delay implied
by the current (non-retarded) distance; otherwise the current center. -/
noncomputable def sourceCenter (particle : SourceParticle) (c : ℝ)
    (p : Vec3R) : Vec3R :=
  if particle.track_position_history then
    particle.get_past_position (normR (p - particle.center) / c)
  else particle.center

/-- The singularity-adjusted distance: unchanged outside the suppression
radius, `radius² / norm` strictly inside it, `np.inf` at distance zero. -/
noncomputable def adjustedNorm (radius : ℝ) (norm : ℝ) : ENNReal :=
  if norm = 0 then ⊤
  else if 0 < norm ∧ norm < radius then ENNReal.ofReal (radius * radius / norm)
  else ENNReal.ofReal norm

/-- The unit vector from the (possibly retarded) source position to the
point; rows with zero distance stay zero
(`np.true_divide(..., where=(norms > 0))` over a zero-initialized output). -/
noncomputable def unitDiff (particle : SourceParticle) (c : ℝ)
    (p : Vec3R) : Vec3R :=
  if 0 < normR (p - sourceCenter particle c p) then
    (normR (p - sourceCenter particle c p))⁻¹ • (p - sourceCenter particle c p)
  else 0

/-- `points_to_particle_info`: per query point, the unit vector from the
(possibly retarded) source position, the true distance, and the
singularity-adjusted distance. -/
noncomputable def points_to_particle_info (particle : SourceParticle)
    (points : List Vec3R) (radius : Option ℝ) (c : ℝ) :
    List (Vec3R × ℝ × ENNReal) :=
  let r := radius.getD particle.radius
  points.map fun p =>
    (unitDiff particle c p, normR (p - sourceCenter particle c p),
      adjustedNorm r (normR (p - sourceCenter particle c p)))

/-- `coulomb_force`: `charge * unit_diffs / adjusted_norms ** 2`, with the
default `c = 2.0` of `points_to_particle_info`. -/
noncomputable def coulomb_force (points : List Vec3R)
    (particle : SourceParticle) (radius : Option ℝ) : List Vec3R :=
  (points_to_particle_info particle points radius 2).map fun info =>
    (particle.charge * ((info.2.2 ^ 2)⁻¹).toReal) • info.1

/-- `lorentz_force`: delays are the TRUE norms divided by `c`
(`delays = norms[:, 0] / c` in the source), the retarded acceleration is
projected off the line of sight, and the force is
`-charge * a_perp / (4 π epsilon0 c² adjusted_norms)`. -/
noncomputable def lorentz_force (points : List Vec3R)
    (particle : SourceParticle) (radius : Option ℝ)
    (c epsilon0 : ℝ) : List Vec3R :=
  (points_to_particle_info particle points radius c).map fun info =>
    let delay := info.2.1 / c
    let acceleration := particle.get_past_acceleration delay
    let a_perp := acceleration - dotR info.1 acceleration • info.1
    (-particle.charge *
      (((ENNReal.ofReal (4 * Real.pi * epsilon0 * c ^ 2) *
        info.2.2)⁻¹).toReal)) • a_perp

/-- A numpy value as produced by the Python builtin `sum` over force arrays:
the integer `0` start value (a scalar), an `(n, 3)` array, or a broadcast
error for mismatched shapes. -/
inductive NpVal where
  | scalar : ℝ → NpVal
  | batch : List Vec3R → NpVal
  | broadcastError : NpVal

/-- Numpy broadcast addition between `sum`'s accumulator and a force array. -/
noncomputable def npAdd : NpVal → NpVal → NpVal
  | .scalar a, .scalar b => .scalar (a + b)
  | .scalar a, .batch l =>
      .batch (l.map fun v => (a + v.1, a + v.2.1, a + v.2.2))
  | .batch l, .scalar a =>
      .batch (l.map fun v => (v.1 + a, v.2.1 + a, v.2.2 + a))
  | .batch l, .batch m =>
      if l.length = m.length then .batch (List.zipWith (· + ·) l m)
      else .broadcastError
  | _, _ => .broadcastError

/-- Python's builtin `sum(...)` over a generator of force arrays: a left fold
of numpy addition starting from the integer scalar `0`. -/
noncomputable def pySum (xs : List (List Vec3R)) : NpVal :=
  xs.foldl (fun acc b => npAdd acc (.batch b)) (.scalar 0)

/-- `CoulombField.get_forces`:
`sum(coulomb_force(points, charge) for charge in self.charges)`. -/
noncomputable def CoulombField.get_forces (charges : List SourceParticle)
    (points : List Vec3R) : NpVal :=
  pySum (charges.map fun ch => coulomb_force points ch none)

/-- `LorentzField.get_forces`: as Coulomb but with the field's suppression
radius and `c`; `epsilon0` is not passed, so `lorentz_force`'s default
`0.025 = 1/40` applies. -/
noncomputable def LorentzField.get_forces (charges : List SourceParticle)
    (radius_of_suppression : Option ℝ) (c : ℝ)
    (points : List Vec3R) : NpVal :=
  pySum (charges.map fun ch =>
    lorentz_force points ch radius_of_suppression c (1 / 40))

/-- The Coulomb force value the claim states at one query point:
`charge × û / a²` where the adjusted distance `a` is the true distance `d`
when `d ≥ r`, is `r² / d` when `0 < d < r`, and is infinite at `d = 0`
(zero force there).  Stated from the claim's words, for comparison with
`coulomb_force`. -/
noncomputable def coulombSpecAt (particle : SourceParticle) (r : ℝ)
    (p : Vec3R) : Vec3R :=
  if normR (p - sourceCenter particle 2 p) = 0 then 0
  else if normR (p - sourceCenter particle 2 p) < r then
    (particle.charge /
      (r ^ 2 / normR (p - sourceCenter particle 2 p)) ^ 2) •
      unitDiff particle 2 p
  else
    (particle.charge / normR (p - sourceCenter particle 2 p) ^ 2) •
      unitDiff particle 2 p

/-- Modelled from the spec's words for claim C2: the Lorentz force with the
acceleration-history delay computed from the ALREADY-ADJUSTED distance
divided by `c` (which is what the claim asserts the code does). -/
noncomputable def lorentzClaimAt (particle : SourceParticle)
    (r c epsilon0 : ℝ) (p : Vec3R) : Vec3R :=
  if normR (p - sourceCenter particle c p) = 0 then 0
  else
    let d := normR (p - sourceCenter particle c p)
    let a := if d < r then r ^ 2 / d else d
    let u := unitDiff particle c p
    let acc := particle.get_past_acceleration (a / c)
    let a_perp := acc - dotR u acc • u
    (-particle.charge / (4 * Real.pi * epsilon0 * c ^ 2 * a)) • a_perp

/-- The per-point value `lorentz_force` computes, the amended claim: identical
to `lorentzClaimAt` except that the acceleration-history delay is the TRUE
(pre-adjustment) distance divided by `c`, while the adjusted distance still
gives the linear `1/a` falloff of the force. -/
noncomputable def lorentzAmendedAt (particle : SourceParticle)
    (r c epsilon0 : ℝ) (p : Vec3R) : Vec3R :=
  if normR (p - sourceCenter particle c p) = 0 then 0
  else
    let d := normR (p - sourceCenter particle c p)
    let a := if d < r then r ^ 2 / d else d
    let u := unitDiff particle c p
    let acc := particle.get_past_acceleration (d / c)
    let a_perp := acc - dotR u acc • u
    (-particle.charge / (4 * Real.pi * epsilon0 * c ^ 2 * a)) • a_perp

/-- The history-tracking source used to separate the two delay conventions:
pinned at the origin, with an acceleration history whose value encodes the
delay it was queried at. -/
noncomputable def delayProbe : SourceParticle :=
  { charge := 1
    radius := 1
    track_position_history := true
    center := (0, 0, 0)
    get_past_position := fun _ => (0, 0, 0)
    get_past_acceleration := fun delay => (0, delay, 0) }

lemma normR_nonneg (v : Vec3R) : 0 ≤ normR v := Real.sqrt_nonneg _

lemma normR_smul (c : ℝ) (v : Vec3R) : normR (c • v) = |c| * normR v := by
  have h1 : (c • v).1 = c * v.1 := rfl
  have h2 : (c • v).2.1 = c * v.2.1 := rfl
  have h3 : (c • v).2.2 = c * v.2.2 := rfl
  rw [normR, h1, h2, h3,
    show (c * v.1) ^ 2 + (c * v.2.1) ^ 2 + (c * v.2.2) ^ 2 =
      c ^ 2 * (v.1 ^ 2 + v.2.1 ^ 2 + v.2.2 ^ 2) by ring,
    Real.sqrt_mul (sq_nonneg c), Real.sqrt_sq_eq_abs, normR]

lemma normR_unitDiff (particle : SourceParticle) (c : ℝ) (p : Vec3R)
    (h : 0 < normR (p - sourceCenter particle c p)) :
    normR (unitDiff particle c p) = 1 := by
  rw [unitDiff, if_pos h, normR_smul, abs_inv, abs_of_pos h,
    inv_mul_cancel₀ (ne_of_gt h)]

lemma coulomb_force_eq_map (particle : SourceParticle) (r : ℝ)
    (points : List Vec3R) :
    coulomb_force points particle (some r) = points.map fun p =>
      (particle.charge *
        ((adjustedNorm r (normR (p - sourceCenter particle 2 p)) ^
          2)⁻¹).toReal) • unitDiff particle 2 p := by
  rw [coulomb_force, points_to_particle_info, List.map_map]
  rfl

lemma coulomb_factor_zero (r : ℝ) :
    ((adjustedNorm r 0 ^ 2)⁻¹).toReal = 0 := by
  rw [adjustedNorm, if_pos rfl, ENNReal.top_pow (by norm_num),
    ENNReal.inv_top]
  rfl

lemma coulomb_factor_in (r d : ℝ) (h0 : 0 < d) (hdr : d < r) :
    ((adjustedNorm r d ^ 2)⁻¹).toReal = ((r ^ 2 / d) ^ 2)⁻¹ := by
  have hrpos : 0 < r := lt_trans h0 hdr
  have hrr : 0 < r * r / d := by positivity
  rw [adjustedNorm, if_neg (ne_of_gt h0), if_pos ⟨h0, hdr⟩,
    ← ENNReal.ofReal_pow (le_of_lt hrr),
    ← ENNReal.ofReal_inv_of_pos (by positivity),
    ENNReal.toReal_ofReal (by positivity), pow_two r]

lemma coulomb_factor_out (r d : ℝ) (h0 : 0 < d) (hdr : r ≤ d) :
    ((adjustedNorm r d ^ 2)⁻¹).toReal = (d ^ 2)⁻¹ := by
  rw [adjustedNorm, if_neg (ne_of_gt h0),
    if_neg (fun hc => absurd hc.2 (not_lt.mpr hdr)),
    ← ENNReal.ofReal_pow (le_of_lt h0),
    ← ENNReal.ofReal_inv_of_pos (by positivity),
    ENNReal.toReal_ofReal (by positivity)]

lemma coulombAt_eq_spec (particle : SourceParticle) (r : ℝ) (p : Vec3R) :
    (particle.charge *
        ((adjustedNorm r (normR (p - sourceCenter particle 2 p)) ^
          2)⁻¹).toReal) • unitDiff particle 2 p = coulombSpecAt particle r p := by
  rcases eq_or_lt_of_le (normR_nonneg (p - sourceCenter particle 2 p)) with
    h0 | h0
  · rw [coulombSpecAt, if_pos h0.symm, ← h0, coulomb_factor_zero, mul_zero,
      zero_smul]
  · rw [coulombSpecAt, if_neg (ne_of_gt h0)]
    by_cases hdr : normR (p - sourceCenter particle 2 p) < r
    · rw [if_pos hdr, coulomb_factor_in _ _ h0 hdr, ← div_eq_mul_inv]
    · rw [if_neg hdr, coulomb_factor_out _ _ h0 (not_lt.mp hdr),
        ← div_eq_mul_inv]

/-- C1: for every query-point batch and every suppression radius `r > 0` with
nonzero charge, `coulomb_force` returns per point `charge × û / a²` where `û`
is the unit vector from the (possibly retarded) source position and the
adjusted distance `a` is `d` for `d ≥ r`, `r²/d` for `0 < d < r`, and
infinite at `d = 0` (`coulombSpecAt`); consequently for `0 < d < r` the
magnitude is strictly below the unsuppressed `|q|/d²` and bounded by
`|q|/r²` as `d → 0`, and at `d = 0` the force is exactly zero. -/
theorem c1_coulomb_suppression (particle : SourceParticle) (r : ℝ)
    (points : List Vec3R) (p : Vec3R) (hr : 0 < r)
    (hq : particle.charge ≠ 0) :
    coulomb_force points particle (some r) =
        points.map (coulombSpecAt particle r) ∧
      (0 < normR (p - sourceCenter particle 2 p) →
        normR (p - sourceCenter particle 2 p) < r →
        normR (coulombSpecAt particle r p) <
            |particle.charge| / normR (p - sourceCenter particle 2 p) ^ 2 ∧
          normR (coulombSpecAt particle r p) ≤ |particle.charge| / r ^ 2) ∧
      (normR (p - sourceCenter particle 2 p) = 0 →
        coulombSpecAt particle r p = 0) := by
  refine ⟨?_, ?_, ?_⟩
  · rw [coulomb_force_eq_map]
    exact List.map_congr_left fun q _ => coulombAt_eq_spec particle r q
  · intro h0 hdr
    have hu := normR_unitDiff particle 2 p h0
    have hd2 : (0 : ℝ) < normR (p - sourceCenter particle 2 p) ^ 2 := by
      positivity
    have hspec : coulombSpecAt particle r p =
        (particle.charge /
          (r ^ 2 / normR (p - sourceCenter particle 2 p)) ^ 2) •
          unitDiff particle 2 p := by
      rw [coulombSpecAt, if_neg (ne_of_gt h0), if_pos hdr]
    have habs : normR (coulombSpecAt particle r p) =
        |particle.charge| /
          (r ^ 2 / normR (p - sourceCenter particle 2 p)) ^ 2 := by
      rw [hspec, normR_smul, hu, mul_one, abs_div,
        abs_of_pos (pow_pos (div_pos (pow_pos hr 2) h0) 2)]
    have hd2r2 : normR (p - sourceCenter particle 2 p) ^ 2 < r ^ 2 := by
      nlinarith
    constructor
    · rw [habs]
      refine div_lt_div_of_pos_left (abs_pos.mpr hq) hd2 ?_
      rw [div_pow, lt_div_iff hd2]
      calc normR (p - sourceCenter particle 2 p) ^ 2 *
            normR (p - sourceCenter particle 2 p) ^ 2 <
          r ^ 2 * r ^ 2 :=
            mul_lt_mul'' hd2r2 hd2r2 (le_of_lt hd2) (le_of_lt hd2)
        _ = (r ^ 2) ^ 2 := by ring
    · rw [habs]
      refine div_le_div_of_nonneg_left (abs_nonneg _) (by positivity) ?_
      rw [div_pow, le_div_iff hd2]
      calc r ^ 2 * normR (p - sourceCenter particle 2 p) ^ 2 ≤
          r ^ 2 * r ^ 2 :=
            mul_le_mul_of_nonneg_left (le_of_lt hd2r2) (by positivity)
        _ = (r ^ 2) ^ 2 := by ring
  · intro h0
    rw [coulombSpecAt, if_pos h0]

/-- The non-tracking unit source used to instantiate C1's hypotheses. -/
noncomputable def staticProbe : SourceParticle :=
  { charge := 1
    radius := 1
    track_position_history := false
    center := (0, 0, 0)
    get_past_position := fun _ => (0, 0, 0)
    get_past_acceleration := fun _ => (0, 0, 0) }

/-- Witness for C1 at the static unit source, radius 2 and point (1,0,0). -/
theorem c1_coulomb_suppression_witness :
    (0 : ℝ) < 2 ∧ staticProbe.charge ≠ 0 ∧
      (coulomb_force [((1 : ℝ), 0, 0)] staticProbe (some 2) =
          [((1 : ℝ), 0, 0)].map (coulombSpecAt staticProbe 2) ∧
        (0 < normR (((1 : ℝ), 0, 0) -
            sourceCenter staticProbe 2 ((1 : ℝ), 0, 0)) →
          normR (((1 : ℝ), 0, 0) -
            sourceCenter staticProbe 2 ((1 : ℝ), 0, 0)) < 2 →
          normR (coulombSpecAt staticProbe 2 ((1 : ℝ), 0, 0)) <
              |staticProbe.charge| /
                normR (((1 : ℝ), 0, 0) -
                  sourceCenter staticProbe 2 ((1 : ℝ), 0, 0)) ^ 2 ∧
            normR (coulombSpecAt staticProbe 2 ((1 : ℝ), 0, 0)) ≤
              |staticProbe.charge| / 2 ^ 2) ∧
        (normR (((1 : ℝ), 0, 0) -
            sourceCenter staticProbe 2 ((1 : ℝ), 0, 0)) = 0 →
          coulombSpecAt staticProbe 2 ((1 : ℝ), 0, 0) = 0)) :=
  ⟨by norm_num, by norm_num [staticProbe],
    c1_coulomb_suppression staticProbe 2 [((1 : ℝ), 0, 0)] ((1 : ℝ), 0, 0)
      (by norm_num) (by norm_num [staticProbe])⟩

lemma adjustedNorm_pos (r d : ℝ) (h0 : 0 < d) :
    adjustedNorm r d = ENNReal.ofReal (if d < r then r ^ 2 / d else d) := by
  rw [adjustedNorm, if_neg (ne_of_gt h0)]
  by_cases hdr : d < r
  · rw [if_pos ⟨h0, hdr⟩, if_pos hdr, pow_two]
  · rw [if_neg (fun hc => absurd hc.2 hdr), if_neg hdr]

lemma lorentz_factor_top (K : ℝ) :
    (((ENNReal.ofReal K * (⊤ : ENNReal))⁻¹).toReal) = 0 := by
  rcases eq_or_ne (ENNReal.ofReal K) 0 with h | h
  · rw [h, zero_mul, ENNReal.inv_zero]
    rfl
  · rw [ENNReal.mul_top h, ENNReal.inv_top]
    rfl

lemma lorentz_factor_pos (K a : ℝ) (hK : 0 ≤ K) (ha : 0 < a) :
    (((ENNReal.ofReal K * ENNReal.ofReal a)⁻¹).toReal) = (K * a)⁻¹ := by
  rcases eq_or_lt_of_le hK with hK0 | hK0
  · rw [← hK0, ENNReal.ofReal_zero, zero_mul, ENNReal.inv_zero, zero_mul,
      inv_zero]
    rfl
  · rw [← ENNReal.ofReal_mul (le_of_lt hK0),
      ← ENNReal.ofReal_inv_of_pos (by positivity),
      ENNReal.toReal_ofReal (by positivity)]

lemma lorentz_force_eq_map (particle : SourceParticle) (r c epsilon0 : ℝ)
    (points : List Vec3R) (heps : 0 ≤ epsilon0) :
    lorentz_force points particle (some r) c epsilon0 =
      points.map (lorentzAmendedAt particle r c epsilon0) := by
  have hK : 0 ≤ 4 * Real.pi * epsilon0 * c ^ 2 :=
    mul_nonneg (mul_nonneg (mul_nonneg (by norm_num) Real.pi_pos.le) heps)
      (sq_nonneg c)
  rw [lorentz_force, points_to_particle_info, List.map_map]
  refine List.map_congr_left fun p _ => ?_
  show (-particle.charge *
      (((ENNReal.ofReal (4 * Real.pi * epsilon0 * c ^ 2) *
        adjustedNorm r (normR (p - sourceCenter particle c p)))⁻¹).toReal)) •
      (particle.get_past_acceleration
          (normR (p - sourceCenter particle c p) / c) -
        dotR (unitDiff particle c p)
            (particle.get_past_acceleration
              (normR (p - sourceCenter particle c p) / c)) •
          unitDiff particle c p) =
    lorentzAmendedAt particle r c epsilon0 p
  rcases eq_or_lt_of_le (normR_nonneg (p - sourceCenter particle c p)) with
    h0 | h0
  · rw [lorentzAmendedAt, if_pos h0.symm, ← h0, adjustedNorm, if_pos rfl,
      lorentz_factor_top, mul_zero, zero_smul]
  · have haR : 0 < if normR (p - sourceCenter particle c p) < r then
        r ^ 2 / normR (p - sourceCenter particle c p)
      else normR (p - sourceCenter particle c p) := by
      by_cases hdr : normR (p - sourceCenter particle c p) < r
      · rw [if_pos hdr]
        have : 0 < r := lt_trans h0 hdr
        positivity
      · rw [if_neg hdr]
        exact h0
    rw [lorentzAmendedAt, if_neg (ne_of_gt h0), adjustedNorm_pos _ _ h0,
      lorentz_factor_pos _ _ hK haR]
    show _ = (-particle.charge / (4 * Real.pi * epsilon0 * c ^ 2 *
        (if normR (p - sourceCenter particle c p) < r then
          r ^ 2 / normR (p - sourceCenter particle c p)
        else normR (p - sourceCenter particle c p)))) •
      (particle.get_past_acceleration
          (normR (p - sourceCenter particle c p) / c) -
        dotR (unitDiff particle c p)
            (particle.get_past_acceleration
              (normR (p - sourceCenter particle c p) / c)) •
          unitDiff particle c p)
    congr 1

/-- C2 amended: `lorentz_force` computes, per point, the delay from the TRUE
(pre-adjustment) distance between the point and the retarded source position
divided by `c`, queries the acceleration history at that delay, discards the
line-of-sight component, and returns
`-charge × a_perp / (4π · epsilon0 · c² · adjusted_distance)` — a linear
(not squared) falloff in the adjusted distance (`lorentzAmendedAt`). -/
theorem c2_lorentz_retarded_delay (particle : SourceParticle)
    (r c epsilon0 : ℝ) (points : List Vec3R) (heps : 0 ≤ epsilon0) :
    lorentz_force points particle (some r) c epsilon0 =
      points.map (lorentzAmendedAt particle r c epsilon0) :=
  lorentz_force_eq_map particle r c epsilon0 points heps

/-- Witness for C2 at the delay probe, radius 2, `c = 2`,
`epsilon0 = 0.025`. -/
theorem c2_lorentz_retarded_delay_witness :
    (0 : ℝ) ≤ 1 / 40 ∧
      lorentz_force [((1 : ℝ), 0, 0)] delayProbe (some 2) 2 (1 / 40) =
        [((1 : ℝ), 0, 0)].map (lorentzAmendedAt delayProbe 2 2 (1 / 40)) :=
  ⟨by norm_num,
    c2_lorentz_retarded_delay delayProbe 2 2 (1 / 40) [((1 : ℝ), 0, 0)]
      (by norm_num)⟩

lemma delayProbe_sourceCenter :
    sourceCenter delayProbe 2 ((1 : ℝ), 0, 0) = ((0 : ℝ), 0, 0) := by
  rw [sourceCenter,
    if_pos (show delayProbe.track_position_history = true from rfl)]
  rfl

lemma delayProbe_dist :
    normR (((1 : ℝ), 0, 0) - sourceCenter delayProbe 2 ((1 : ℝ), 0, 0)) = 1 := by
  rw [delayProbe_sourceCenter,
    show ((1 : ℝ), (0 : ℝ), (0 : ℝ)) - ((0 : ℝ), 0, 0) =
      ((1 : ℝ), (0 : ℝ), (0 : ℝ)) by norm_num [Prod.mk_sub_mk], normR]
  norm_num [Real.sqrt_one]

lemma delayProbe_unit :
    unitDiff delayProbe 2 ((1 : ℝ), 0, 0) = ((1 : ℝ), 0, 0) := by
  rw [unitDiff, if_pos (by rw [delayProbe_dist]; norm_num), delayProbe_dist,
    delayProbe_sourceCenter, inv_one, one_smul]
  norm_num [Prod.mk_sub_mk]

/-- C2 counterexample: the claim says the acceleration-history delay is the
already-adjusted distance over `c`; the code divides the TRUE norm by `c`
(`delays = norms[:, 0] / c`).  At distance 1 inside suppression radius 2 the
adjusted distance is 4, so the claims formula queries the history at delay 2
while the code queries it at delay 1/2; with a history that returns the delay
itself as the y-acceleration the two force vectors differ. -/
theorem c2_counterexample :
    lorentz_force [((1 : ℝ), 0, 0)] delayProbe (some 2) 2 (1 / 40) ≠
      [lorentzClaimAt delayProbe 2 2 (1 / 40) ((1 : ℝ), 0, 0)] := by
  have hmap := lorentz_force_eq_map delayProbe 2 2 (1 / 40)
    [((1 : ℝ), 0, 0)] (by norm_num)
  rw [hmap, List.map_cons, List.map_nil]
  intro h
  have h1 : lorentzAmendedAt delayProbe 2 2 (1 / 40) ((1 : ℝ), 0, 0) =
      lorentzClaimAt delayProbe 2 2 (1 / 40) ((1 : ℝ), 0, 0) := by
    simpa using h
  have hyA : (lorentzAmendedAt delayProbe 2 2 (1 / 40)
      ((1 : ℝ), 0, 0)).2.1 =
      (-1 / (4 * Real.pi * (1 / 40) * 2 ^ 2 * 4)) * (1 / 2) := by
    rw [lorentzAmendedAt]
    simp only [delayProbe_dist, delayProbe_unit]
    norm_num [delayProbe, dotR, Prod.smul_mk, smul_eq_mul]
  have hyB : (lorentzClaimAt delayProbe 2 2 (1 / 40)
      ((1 : ℝ), 0, 0)).2.1 =
      (-1 / (4 * Real.pi * (1 / 40) * 2 ^ 2 * 4)) * 2 := by
    rw [lorentzClaimAt]
    simp only [delayProbe_dist, delayProbe_unit]
    norm_num [delayProbe, dotR, Prod.smul_mk, smul_eq_mul]
  have h2 : (-1 / (4 * Real.pi * (1 / 40) * 2 ^ 2 * 4)) * (1 / 2) =
      (-1 / (4 * Real.pi * (1 / 40) * 2 ^ 2 * 4)) * 2 := by
    rw [← hyA, ← hyB, h1]
  have hs : (-1 / (4 * Real.pi * (1 / 40) * 2 ^ 2 * 4)) ≠ 0 := by
    apply div_ne_zero (by norm_num)
    positivity
  have : (-1 / (4 * Real.pi * (1 / 40) * 2 ^ 2 * 4)) = 0 := by linarith
  exact hs this

lemma npAdd_zero_batch (l : List Vec3R) :
    npAdd (NpVal.scalar 0) (NpVal.batch l) = NpVal.batch l := by
  simp [npAdd]

/-- The elementwise (per query point) sum the claim asserts: row `i` of the
result is the sum, over all sources, of row `i` of that source's force array.
Stated from the claim's words, for comparison with the aggregators. -/
noncomputable def sumRows (n : ℕ) (fs : List (List Vec3R)) : List Vec3R :=
  (List.range n).map fun i => (fs.map fun f => f.getD i (0, 0, 0)).sum

lemma coulomb_force_length (points : List Vec3R) (particle : SourceParticle)
    (radius : Option ℝ) :
    (coulomb_force points particle radius).length = points.length := by
  rw [coulomb_force, points_to_particle_info]
  simp

lemma lorentz_force_length (points : List Vec3R) (particle : SourceParticle)
    (radius : Option ℝ) (c epsilon0 : ℝ) :
    (lorentz_force points particle radius c epsilon0).length =
      points.length := by
  rw [lorentz_force, points_to_particle_info]
  simp

lemma zipWith_add_getD (a b : List Vec3R) (i : ℕ) (ha : i < a.length)
    (hb : i < b.length) :
    (List.zipWith (· + ·) a b).getD i (0, 0, 0) =
      a.getD i (0, 0, 0) + b.getD i (0, 0, 0) := by
  have hz : i < (List.zipWith (· + ·) a b).length := by
    rw [List.length_zipWith]
    omega
  rw [List.getD_eq_getElem _ _ hz, List.getD_eq_getElem _ _ ha,
    List.getD_eq_getElem _ _ hb, List.getElem_zipWith]

lemma foldl_zipWith_length (n : ℕ) :
    ∀ (fs : List (List Vec3R)) (acc : List Vec3R), acc.length = n →
      (∀ f ∈ fs, f.length = n) →
      (fs.foldl (fun a b => List.zipWith (· + ·) a b) acc).length = n := by
  intro fs
  induction fs with
  | nil => intro acc hacc _; exact hacc
  | cons f fs ih =>
    intro acc hacc hall
    rw [List.foldl_cons]
    refine ih _ ?_ fun g hg => hall g (List.mem_cons_of_mem f hg)
    rw [List.length_zipWith, hacc, hall f (List.mem_cons_self f fs)]
    omega

lemma foldl_zipWith_getD (n : ℕ) :
    ∀ (fs : List (List Vec3R)) (acc : List Vec3R) (i : ℕ), acc.length = n →
      (∀ f ∈ fs, f.length = n) → i < n →
      (fs.foldl (fun a b => List.zipWith (· + ·) a b) acc).getD i (0, 0, 0) =
        acc.getD i (0, 0, 0) + (fs.map fun f => f.getD i (0, 0, 0)).sum := by
  intro fs
  induction fs with
  | nil =>
    intro acc i _ _ _
    rw [List.foldl_nil, List.map_nil, List.sum_nil, add_zero]
  | cons f fs ih =>
    intro acc i hacc hall hi
    have hf : f.length = n := hall f (List.mem_cons_self f fs)
    have hzlen : (List.zipWith (· + ·) acc f).length = n := by
      rw [List.length_zipWith, hacc, hf]
      omega
    rw [List.foldl_cons,
      ih (List.zipWith (· + ·) acc f) i hzlen
        (fun g hg => hall g (List.mem_cons_of_mem f hg)) hi,
      zipWith_add_getD acc f i (by omega) (by omega), List.map_cons,
      List.sum_cons, add_assoc]

lemma pySum_batch_go (n : ℕ) :
    ∀ (fs : List (List Vec3R)) (acc : List Vec3R), acc.length = n →
      (∀ f ∈ fs, f.length = n) →
      fs.foldl (fun a b => npAdd a (.batch b)) (NpVal.batch acc) =
        NpVal.batch (fs.foldl (fun a b => List.zipWith (· + ·) a b) acc) := by
  intro fs
  induction fs with
  | nil => intro acc _ _; rfl
  | cons f fs ih =>
    intro acc hacc hall
    have hf : f.length = n := hall f (List.mem_cons_self f fs)
    rw [List.foldl_cons, List.foldl_cons]
    rw [show npAdd (NpVal.batch acc) (NpVal.batch f) =
      NpVal.batch (List.zipWith (· + ·) acc f) by
        simp only [npAdd, if_pos (hacc.trans hf.symm)]]
    refine ih _ ?_ fun g hg => hall g (List.mem_cons_of_mem f hg)
    rw [List.length_zipWith, hacc, hf]
    omega

lemma pySum_nonempty (n : ℕ) (f0 : List Vec3R) (fs : List (List Vec3R))
    (h0 : f0.length = n) (hall : ∀ f ∈ fs, f.length = n) :
    pySum (f0 :: fs) = NpVal.batch (sumRows n (f0 :: fs)) := by
  rw [pySum, List.foldl_cons, npAdd_zero_batch, pySum_batch_go n fs f0 h0 hall]
  congr 1
  refine List.ext_getElem ?_ ?_
  · rw [foldl_zipWith_length n fs f0 h0 hall, sumRows, List.length_map,
      List.length_range]
  · intro i h₁ h₂
    have hi : i < n := by rwa [foldl_zipWith_length n fs f0 h0 hall] at h₁
    have hR : (sumRows n (f0 :: fs))[i] =
        ((f0 :: fs).map fun f => f.getD i (0, 0, 0)).sum := by
      simp only [sumRows, List.getElem_map, List.getElem_range]
    rw [hR, List.map_cons, List.sum_cons,
      ← List.getD_eq_getElem _ (0, 0, 0) h₁,
      foldl_zipWith_getD n fs f0 i h0 hall hi]

/-- C6 amended: for every point batch and every NONEMPTY source set, the
aggregated field is the elementwise (per point) sum of the single-source
forces over all sources — in particular the field of two sources is the numpy
sum of their single-source fields — but the EMPTY source set yields the
Python integer scalar `0` (the start value of the builtin `sum`), which
broadcasts as zero under numpy addition, not an `(n, 3)` array of zero
vectors of the input's shape. -/
theorem c6_superposition :
    (∀ (cs : List SourceParticle) (points : List Vec3R), cs ≠ [] →
      CoulombField.get_forces cs points =
        NpVal.batch (sumRows points.length
          (cs.map fun ch => coulomb_force points ch none))) ∧
      (∀ (cs : List SourceParticle) (radius_of_suppression : Option ℝ)
        (c : ℝ) (points : List Vec3R), cs ≠ [] →
        LorentzField.get_forces cs radius_of_suppression c points =
          NpVal.batch (sumRows points.length
            (cs.map fun ch =>
              lorentz_force points ch radius_of_suppression c (1 / 40)))) ∧
      (∀ (A B : SourceParticle) (points : List Vec3R),
        CoulombField.get_forces [A, B] points =
          npAdd (CoulombField.get_forces [A] points)
            (CoulombField.get_forces [B] points)) ∧
      (∀ (A B : SourceParticle) (radius_of_suppression : Option ℝ) (c : ℝ)
        (points : List Vec3R),
        LorentzField.get_forces [A, B] radius_of_suppression c points =
          npAdd (LorentzField.get_forces [A] radius_of_suppression c points)
            (LorentzField.get_forces [B] radius_of_suppression c points)) ∧
      (∀ points : List Vec3R,
        CoulombField.get_forces [] points = NpVal.scalar 0) ∧
      (∀ (radius_of_suppression : Option ℝ) (c : ℝ) (points : List Vec3R),
        LorentzField.get_forces [] radius_of_suppression c points =
          NpVal.scalar 0) := by
  refine ⟨?_, ?_, ?_, ?_, fun _ => rfl, fun _ _ _ => rfl⟩
  · rintro (_ | ⟨A, cs⟩) points hne
    · exact absurd rfl hne
    · rw [CoulombField.get_forces, List.map_cons]
      exact pySum_nonempty points.length _ _
        (coulomb_force_length points A none)
        (fun f hf => by
          obtain ⟨ch, _, rfl⟩ := List.mem_map.mp hf
          exact coulomb_force_length points ch none)
  · rintro (_ | ⟨A, cs⟩) radius_of_suppression c points hne
    · exact absurd rfl hne
    · rw [LorentzField.get_forces, List.map_cons]
      exact pySum_nonempty points.length _ _
        (lorentz_force_length points A radius_of_suppression c (1 / 40))
        (fun f hf => by
          obtain ⟨ch, _, rfl⟩ := List.mem_map.mp hf
          exact lorentz_force_length points ch radius_of_suppression c (1 / 40))
  · intro A B points
    show npAdd (npAdd (.scalar 0) (.batch (coulomb_force points A none)))
        (.batch (coulomb_force points B none)) =
      npAdd (npAdd (.scalar 0) (.batch (coulomb_force points A none)))
        (npAdd (.scalar 0) (.batch (coulomb_force points B none)))
    rw [npAdd_zero_batch, npAdd_zero_batch]
  · intro A B radius_of_suppression c points
    show npAdd (npAdd (.scalar 0)
        (.batch (lorentz_force points A radius_of_suppression c (1 / 40))))
        (.batch (lorentz_force points B radius_of_suppression c (1 / 40))) =
      npAdd (npAdd (.scalar 0)
        (.batch (lorentz_force points A radius_of_suppression c (1 / 40))))
        (npAdd (.scalar 0)
          (.batch (lorentz_force points B radius_of_suppression c (1 / 40))))
    rw [npAdd_zero_batch, npAdd_zero_batch]

/-- Witness for C6: the nonempty-source-set hypotheses discharged at a
singleton and at a two-element source set. -/
theorem c6_superposition_witness :
    ([staticProbe] : List SourceParticle) ≠ [] ∧
      ([staticProbe, delayProbe] : List SourceParticle) ≠ [] ∧
      CoulombField.get_forces [staticProbe] [((0 : ℝ), 0, 0)] =
        NpVal.batch (sumRows ([((0 : ℝ), 0, 0)] : List Vec3R).length
          (([staticProbe] : List SourceParticle).map fun ch =>
            coulomb_force [((0 : ℝ), 0, 0)] ch none)) ∧
      CoulombField.get_forces [staticProbe, delayProbe] [((0 : ℝ), 0, 0)] =
        NpVal.batch (sumRows ([((0 : ℝ), 0, 0)] : List Vec3R).length
          (([staticProbe, delayProbe] : List SourceParticle).map fun ch =>
            coulomb_force [((0 : ℝ), 0, 0)] ch none)) ∧
      LorentzField.get_forces [delayProbe] none 2 [((0 : ℝ), 0, 0)] =
        NpVal.batch (sumRows ([((0 : ℝ), 0, 0)] : List Vec3R).length
          (([delayProbe] : List SourceParticle).map fun ch =>
            lorentz_force [((0 : ℝ), 0, 0)] ch none 2 (1 / 40))) :=
  ⟨List.cons_ne_nil _ _, List.cons_ne_nil _ _,
    c6_superposition.1 [staticProbe] [((0 : ℝ), 0, 0)]
      (List.cons_ne_nil _ _),
    c6_superposition.1 [staticProbe, delayProbe] [((0 : ℝ), 0, 0)]
      (List.cons_ne_nil _ _),
    c6_superposition.2.1 [delayProbe] none 2 [((0 : ℝ), 0, 0)]
      (List.cons_ne_nil _ _)⟩

/-- C6 counterexample: for an empty source set, both aggregators return the
broadcast-neutral scalar `0` produced by Python's builtin `sum`, not an array
of zero vectors matching the shape of the query points (here a single point,
so the claims value would be the one-row batch `[(0, 0, 0)]`). -/
theorem c6_counterexample :
    CoulombField.get_forces [] [((0 : ℝ), 0, 0)] ≠
        NpVal.batch [((0 : ℝ), 0, 0)] ∧
      LorentzField.get_forces [] none 2 [((0 : ℝ), 0, 0)] ≠
        NpVal.batch [((0 : ℝ), 0, 0)] := by
  constructor <;> exact fun h => NpVal.noConfusion h

end PhysicsManim
